import Mathlib

/-!
Formal model of the Telegram PDF-to-Excel converter (src/app.py, src/Bot.py),
focusing on the job-lifecycle core: admission control in `handle_pdf`, the
single-flight registry `active_jobs`, the background worker
`process_pdf_async` with its cancellation, progress reporting and cleanup,
and the artifact path computation.
-/

namespace PdfBot

/-- Hard safety limit on pages to process (app.py, `MAX_PAGES = 3000`). -/
def MAX_PAGES : Nat := 3000

/-- Reject uploads larger than this many bytes (app.py,
`MAX_FILE_SIZE_BYTES = 20 * 1024 * 1024`). -/
def MAX_FILE_SIZE_BYTES : Nat := 20 * 1024 * 1024

/-- How many times to update progress (app.py, `PROGRESS_STEPS = 10`). -/
def PROGRESS_STEPS : Nat := 10

/-! ## Python string primitives used by the path computation -/

/-- Python `str.lower` applied characterwise, as used on file names. -/
def lowerStr (s : List Char) : List Char := s.map Char.toLower

/-- The admission filter `document.file_name.lower().endswith(".pdf")`
(app.py line 235; Bot.py line 15). -/
def isPdfName (name : List Char) : Bool :=
  ".pdf".toList.isSuffixOf (lowerStr name)

/-- The download target `f"/tmp/{document.file_name}"` (app.py line 263;
Bot.py line 22). -/
def pdfPathOf (name : List Char) : List Char := "/tmp/".toList ++ name

/-- Python `str.replace` with no count argument, implemented with explicit
fuel so that it is structurally recursive: every non-overlapping occurrence
of `p` is replaced by `r`, scanning left to right.  The call sites always
pass the non-empty pattern ".pdf", so the empty-pattern corner of the Python
`replace` is irrelevant here (the guard makes an empty pattern a no-op). -/
def replaceAllFuel (p r : List Char) : Nat → List Char → List Char
  | _, [] => []
  | 0, s => s
  | fuel+1, c :: cs =>
    if p.isPrefixOf (c :: cs) && !p.isEmpty then
      r ++ replaceAllFuel p r fuel (cs.drop (p.length - 1))
    else
      c :: replaceAllFuel p r fuel cs

/-- Python `s.replace(p, r)`: enough fuel to scan the whole string. -/
def replaceAll (p r s : List Char) : List Char := replaceAllFuel p r s.length s

/-- The output path computation of app.py line 264 and Bot.py line 23:
`excel_path = pdf_path.replace(".pdf", ".xlsx")`. -/
def excelPathOf (p : List Char) : List Char :=
  replaceAll ".pdf".toList ".xlsx".toList p

/-- Modelled from the specification text: replace only the *first* occurrence
of the pattern, for comparison with the replace-all semantics of the source. -/
def replaceFirstSpec (p r : List Char) : List Char → List Char
  | [] => []
  | c :: cs =>
    if p.isPrefixOf (c :: cs) && !p.isEmpty then r ++ cs.drop (p.length - 1)
    else c :: replaceFirstSpec p r cs

/-- `os.path.basename` for the flat `/tmp/...` paths at hand
(app.py line 163; Bot.py line 46). -/
def basename (p : List Char) : List Char :=
  (p.reverse.takeWhile (fun c => c != '/')).reverse

/-- Substring occurrence test: does `p` occur contiguously in the string? -/
def containsSub (p : List Char) : List Char → Bool
  | [] => p.isEmpty
  | c :: cs => p.isPrefixOf (c :: cs) || containsSub p cs

/-! ## Admission control: handle_pdf (app.py lines 223-292) -/

/-- Python truthiness of
`document.file_size and document.file_size > MAX_FILE_SIZE_BYTES`
(app.py line 240): `None` and `0` are falsy, so only a known non-zero size
can trip the limit. -/
def sizeTooBig : Option Nat → Bool
  | none => false
  | some s => (s != 0) && decide (MAX_FILE_SIZE_BYTES < s)

inductive Admit where
  | wrongType
  | tooLarge
  | alreadyRunning
  | downloadError
  | started (pdfPath excelPath : List Char)
deriving DecidableEq

/-- Observable effects of one `handle_pdf` invocation. -/
structure AdmitRes where
  result : Admit
  downloadAttempted : Bool
  jobInserted : Bool
  threadStarted : Bool
  regAfter : Bool
deriving DecidableEq

/-- Sequential model of `handle_pdf` (app.py lines 223-292), in source order:
file-name filter, size limit, single-flight check against the registry, path
computation, download, registry insertion, thread start.  `regHas` says
whether `active_jobs` already holds an entry for this chat. -/
def handlePdf (fileName : List Char) (fileSize : Option Nat)
    (regHas downloadFails : Bool) : AdmitRes :=
  if !isPdfName fileName then ⟨.wrongType, false, false, false, regHas⟩
  else if sizeTooBig fileSize then ⟨.tooLarge, false, false, false, regHas⟩
  else if regHas then ⟨.alreadyRunning, false, false, false, regHas⟩
  else
    if downloadFails then ⟨.downloadError, true, false, false, regHas⟩
    else ⟨.started (pdfPathOf fileName) (excelPathOf (pdfPathOf fileName)),
          true, true, true, true⟩

/-- Resource allocation as actually performed by `handle_pdf`: the source and
output paths are computed from the uploaded file name only; the chat id,
although in scope, does not enter the computation (app.py lines 262-264). -/
def allocatePaths (_chatId : Nat) (fileName : List Char) :
    List Char × List Char :=
  (pdfPathOf fileName, excelPathOf (pdfPathOf fileName))

/-! ## Lemmas about the string primitives -/

lemma isPrefixOf_self_append (p l : List Char) :
    p.isPrefixOf (p ++ l) = true := by
  induction p with
  | nil => simp [List.isPrefixOf]
  | cons a as ih => simp [List.isPrefixOf, ih]

lemma containsSub_append_self (p : List Char) :
    ∀ a b : List Char, containsSub p (a ++ (p ++ b)) = true := by
  intro a
  induction a with
  | nil =>
    intro b
    cases hp : p ++ b with
    | nil =>
      have : p = [] := by
        cases p with
        | nil => rfl
        | cons x xs => simp at hp
      simp [this, containsSub]
    | cons c cs =>
      simp only [List.nil_append, hp, containsSub]
      rw [← hp, isPrefixOf_self_append]
      simp
  | cons c cs ih =>
    intro b
    simp only [List.cons_append, containsSub, List.append_eq]
    rw [ih b]
    simp

lemma replaceAllFuel_of_not_contains (p r : List Char) :
    ∀ fuel s, s.length ≤ fuel → containsSub p s = false →
      replaceAllFuel p r fuel s = s := by
  intro fuel
  induction fuel with
  | zero =>
    intro s hlen _hsub
    cases s with
    | nil => rfl
    | cons c cs => simp at hlen
  | succ fuel ih =>
    intro s hlen hsub
    cases s with
    | nil => rfl
    | cons c cs =>
      simp only [containsSub, Bool.or_eq_false_iff] at hsub
      simp only [replaceAllFuel, hsub.1, Bool.false_and, if_neg]
      rw [ih cs (by simp at hlen; omega) hsub.2]
      simp

lemma replaceAll_of_not_contains (p r s : List Char)
    (h : containsSub p s = false) : replaceAll p r s = s :=
  replaceAllFuel_of_not_contains p r s.length s le_rfl h

lemma takeWhile_all_append (P : Char → Bool) :
    ∀ l₁ : List Char, (∀ c ∈ l₁, P c = true) → ∀ x l₂, P x = false →
      List.takeWhile P (l₁ ++ x :: l₂) = l₁ := by
  intro l₁
  induction l₁ with
  | nil =>
    intro _ x l₂ hx
    simp [List.takeWhile, hx]
  | cons c cs ih =>
    intro hall x l₂ hx
    have hc : P c = true := hall c (by simp)
    simp only [List.cons_append, List.takeWhile, hc, List.append_eq]
    rw [ih (fun d hd => hall d (by simp [hd])) x l₂ hx]

lemma basename_tmp (name : List Char) (h : '/' ∉ name) :
    basename (pdfPathOf name) = name := by
  unfold basename pdfPathOf
  rw [List.reverse_append]
  have hrev : "/tmp/".toList.reverse = '/' :: "pmt/".toList := by decide
  rw [hrev]
  rw [takeWhile_all_append _ name.reverse
        (fun c hc => by
          have : c ∈ name := List.mem_reverse.mp hc
          have hne : c ≠ '/' := fun he => h (he ▸ this)
          simp [hne])
        '/' ("pmt/".toList) (by decide)]
  exact List.reverse_reverse name

/-! ## Claims about admission and path allocation -/

/-- Claim C4 counterexample: two distinct clients (chat ids 1 and 2) uploading
the same file name "report.pdf" are allocated identical source and output
paths, contradicting the claimed uniqueness across concurrent jobs of distinct
clients. -/
theorem C4_counterexample :
    allocatePaths 1 "report.pdf".toList = allocatePaths 2 "report.pdf".toList
    ∧ (1 : Nat) ≠ 2 := by
  exact ⟨rfl, by decide⟩

/-- Claim C4 amended: the allocated artifact paths are a function of the
uploaded file name alone; the client identity never enters the computation, so
two concurrent jobs of distinct clients with the same uploaded file name
receive the same source and output paths. -/
theorem C4_amended :
    (∀ c c' : Nat, ∀ name : List Char,
        allocatePaths c name = allocatePaths c' name)
    ∧ allocatePaths 1 "report.pdf".toList = allocatePaths 2 "report.pdf".toList := by
  exact ⟨fun _ _ _ => rfl, rfl⟩

/-- Claim C7: a PDF-named upload whose known size strictly exceeds
`MAX_FILE_SIZE_BYTES` is rejected by the size check (app.py lines 239-251)
before the registry is consulted, before any download and before any job is
created: the reply is the size-limit rejection, nothing is downloaded, no
registry insertion happens, no worker thread starts, and the registry is
exactly as it was. -/
theorem C7_size_reject (name : List Char) (s : Nat) (regHas downloadFails : Bool)
    (hname : isPdfName name = true) (hs : MAX_FILE_SIZE_BYTES < s) :
    handlePdf name (some s) regHas downloadFails =
      ⟨.tooLarge, false, false, false, regHas⟩ := by
  have h0 : s ≠ 0 := by
    intro h
    rw [h] at hs
    exact absurd hs (by decide)
  unfold handlePdf
  simp [hname, sizeTooBig, h0, hs]

/-- Claim C7 witness: a 20 MiB + 1 byte upload named "big.pdf" is rejected at
admission with the size-limit reply, leaving the registry untouched. -/
theorem C7_size_reject_witness :
    isPdfName "big.pdf".toList = true
    ∧ MAX_FILE_SIZE_BYTES < 20971521
    ∧ handlePdf "big.pdf".toList (some 20971521) false false =
        ⟨.tooLarge, false, false, false, false⟩ :=
  ⟨by decide, by decide,
   C7_size_reject "big.pdf".toList 20971521 false false (by decide) (by decide)⟩

/-- Claim C10 counterexample: the accepted file name "a.pdf.pdf" shows that
the output path is not obtained by replacing only the first ".pdf"
occurrence — the Python `str.replace` with no count argument replaces every
occurrence, giving "/tmp/a.xlsx.xlsx" rather than "/tmp/a.xlsx.pdf". -/
theorem C10_counterexample :
    isPdfName "a.pdf.pdf".toList = true
    ∧ excelPathOf (pdfPathOf "a.pdf.pdf".toList) = "/tmp/a.xlsx.xlsx".toList
    ∧ excelPathOf (pdfPathOf "a.pdf.pdf".toList)
        ≠ replaceFirstSpec ".pdf".toList ".xlsx".toList
            (pdfPathOf "a.pdf.pdf".toList) := by
  refine ⟨by decide, by decide, by decide⟩

/-- Claim C10 amended: the admission filter accepts any file name whose
lowercase form ends in ".pdf", and the output path replaces every literal
lowercase ".pdf" occurrence in the source path; hence for every accepted
file name whose path contains no lowercase ".pdf" substring (e.g. one ending
in ".PDF"), the computed output path equals the source path — the spreadsheet
is saved over the downloaded source artifact — and the basename under which
the result is sent is the original uploaded name. -/
theorem C10_amended (name : List Char)
    (hacc : isPdfName name = true)
    (hnosub : containsSub ".pdf".toList (pdfPathOf name) = false)
    (hslash : '/' ∉ name) :
    excelPathOf (pdfPathOf name) = pdfPathOf name
    ∧ basename (excelPathOf (pdfPathOf name)) = name := by
  have heq : excelPathOf (pdfPathOf name) = pdfPathOf name :=
    replaceAll_of_not_contains _ _ _ hnosub
  exact ⟨heq, by rw [heq]; exact basename_tmp name hslash⟩

/-- Claim C10 amended witness: the accepted upper-case name "REPORT.PDF"
collapses source and output paths onto "/tmp/REPORT.PDF", and the file is
sent back under the name "REPORT.PDF". -/
theorem C10_amended_witness :
    isPdfName "REPORT.PDF".toList = true
    ∧ excelPathOf (pdfPathOf "REPORT.PDF".toList) = pdfPathOf "REPORT.PDF".toList
    ∧ basename (excelPathOf (pdfPathOf "REPORT.PDF".toList)) = "REPORT.PDF".toList :=
  ⟨by decide,
   (C10_amended "REPORT.PDF".toList (by decide) (by decide) (by decide)).1,
   (C10_amended "REPORT.PDF".toList (by decide) (by decide) (by decide)).2⟩

/-! ## The check/insert race in handle_pdf (claim C1)

`handle_pdf` checks `active_jobs` under `jobs_lock` (app.py lines 253-260),
releases the lock, downloads the file, and only then re-acquires the lock to
insert the new job (lines 285-289) before starting the thread (line 291).
We model two concurrent invocations for the same chat id as a small
interleaved transition system whose atomic steps are exactly the program
sections between lock boundaries. -/

inductive Pc where
  | start      -- about to run the locked existence check
  | checked    -- passed the check, about to download
  | downloaded -- downloaded, about to run the locked insertion
  | inserted   -- inserted, about to start the thread
  | done       -- thread started
  | rejected   -- replied "already running" and returned
deriving DecidableEq

/-- Joint state of the registry entry for one chat id and two concurrent
`handle_pdf` invocations A and B for that same chat id. -/
structure CState where
  reg : Bool
  pcA : Pc
  pcB : Pc
  startedA : Bool
  startedB : Bool
deriving DecidableEq

/-- One atomic step of one `handle_pdf` invocation: the locked existence
check, the download, the locked insertion, and the thread start, in source
order.  Returns the new program counter, registry flag and started flag. -/
def stepReq : Pc → Bool → Bool → Pc × Bool × Bool
  | .start, reg, started =>
      if reg then (.rejected, reg, started) else (.checked, reg, started)
  | .checked, reg, started => (.downloaded, reg, started)
  | .downloaded, _reg, started => (.inserted, true, started)
  | .inserted, reg, _started => (.done, reg, true)
  | .done, reg, started => (.done, reg, started)
  | .rejected, reg, started => (.rejected, reg, started)

/-- Scheduler step: `false` advances invocation A, `true` advances B. -/
def cstep (s : CState) : Bool → CState
  | true =>
    let t := stepReq s.pcB s.reg s.startedB
    { s with pcB := t.1, reg := t.2.1, startedB := t.2.2 }
  | false =>
    let t := stepReq s.pcA s.reg s.startedA
    { s with pcA := t.1, reg := t.2.1, startedA := t.2.2 }

/-- Initially no job is registered and both requests are at the check. -/
def cinit : CState := ⟨false, .start, .start, false, false⟩

/-- Run a schedule of interleaved steps. -/
def crun (sched : List Bool) : CState := sched.foldl cstep cinit

/-- Claim C1 counterexample: the existence check and the insertion are in
separate critical sections, so the interleaving "A checks, B checks, A
downloads-inserts-starts, B downloads-inserts-starts" admits both requests:
both background jobs start even though the second arrived while the first was
non-terminal, refuting the claimed check-and-insert atomicity. -/
theorem C1_counterexample :
    (crun [false, true, false, false, false, true, true, true]).startedA = true
    ∧ (crun [false, true, false, false, false, true, true, true]).startedB = true := by
  exact ⟨rfl, rfl⟩

/-- Invariant after the first request has fully registered: the entry exists,
A is done and started, and B can only ever be rejected. -/
def SingleFlightInv (s : CState) : Prop :=
  s.reg = true ∧ s.pcA = .done ∧ s.startedA = true ∧ s.startedB = false
  ∧ (s.pcB = .start ∨ s.pcB = .rejected)

lemma cstep_preserves (s : CState) (b : Bool) (h : SingleFlightInv s) :
    SingleFlightInv (cstep s b) := by
  obtain ⟨reg, pcA, pcB, sA, sB⟩ := s
  obtain ⟨h1, h2, h3, h4, h5⟩ := h
  have h1' : reg = true := h1
  have h2' : pcA = Pc.done := h2
  have h3' : sA = true := h3
  have h4' : sB = false := h4
  subst h1'
  subst h2'
  subst h3'
  subst h4'
  have h5' : pcB = Pc.start ∨ pcB = Pc.rejected := h5
  rcases h5' with h5' | h5' <;> subst h5' <;> cases b <;>
    first
      | exact ⟨rfl, rfl, rfl, rfl, Or.inl rfl⟩
      | exact ⟨rfl, rfl, rfl, rfl, Or.inr rfl⟩

lemma foldl_cstep_preserves (l : List Bool) :
    ∀ s, SingleFlightInv s → SingleFlightInv (l.foldl cstep s) := by
  induction l with
  | nil => intro s h; exact h
  | cons b bs ih => intro s h; exact ih (cstep s b) (cstep_preserves s b h)

/-- Claim C1 amended: the locked existence check alone is atomic — once a
request has inserted its job, any later-checking request for the same client
is rejected, starts no thread and leaves the registry entry in place — but
the check and the insertion are two separate critical sections, so two
requests racing in the window between them can both be admitted.  Here, after
the first request runs to completion, no schedule lets the second start a
job. -/
theorem C1_amended (rest : List Bool) :
    (crun ([false, false, false, false] ++ rest)).startedA = true
    ∧ (crun ([false, false, false, false] ++ rest)).startedB = false
    ∧ (crun ([false, false, false, false] ++ rest)).reg = true
    ∧ ((crun ([false, false, false, false] ++ rest)).pcB = .start
        ∨ (crun ([false, false, false, false] ++ rest)).pcB = .rejected) := by
  have hpre : crun [false, false, false, false] =
      ⟨true, .done, .start, true, false⟩ := rfl
  have hsplit : crun ([false, false, false, false] ++ rest)
      = rest.foldl cstep (crun [false, false, false, false]) := by
    unfold crun
    rw [List.foldl_append]
  have hinv : SingleFlightInv (crun ([false, false, false, false] ++ rest)) := by
    rw [hsplit, hpre]
    exact foldl_cstep_preserves rest _ ⟨rfl, rfl, rfl, rfl, Or.inl rfl⟩
  exact ⟨hinv.2.2.1, hinv.2.2.2.1, hinv.1, hinv.2.2.2.2⟩

/-! ## The background worker: process_pdf_async (app.py lines 48-190)

The worker is a `try` body (status edit, open, empty check, clamp, page loop,
no-table check, save, completion edit, document send), an `except` handler
that attempts a generic failure notice, and a `finally` block that pops the
registry entry and deletes both artifacts.  We embed it as a pure function
from the document contents, the cancellation signal and a fault configuration
(which calls to the outside world throw) to the complete observable result:
the ordered list of attempted status edits, the log entries, the processed
pages, the accumulated sheet rows, whether the document was sent, the
terminal branch taken, and the state of the two artifacts and of the registry
entry after cleanup. -/

abbrev Cell := Option String
abbrev Row := List Cell

/-- The chat status texts issued through `bot.edit_message_text`, one
constructor per literal text in app.py, carrying the interpolated numbers. -/
inductive Msg where
  | processing
  | empty
  | cancelled (i tot : Nat)
  | progress (percent cur tot : Nat)
  | noTable
  | complete
  | genericError
deriving DecidableEq

/-- The literal f-string texts of app.py, rendered as character lists. -/
def renderMsg : Msg → List Char
  | .processing => "Processing your PDF… ⏳".toList
  | .empty => "⚠️ This PDF seems to be empty.".toList
  | .cancelled i tot =>
      "❌ Conversion cancelled at page ".toList
        ++ ((toString i).toList
            ++ ("/".toList ++ (toString tot).toList ++ ".".toList))
  | .progress p c t =>
      "Processing… ".toList ++ (toString p).toList ++ "% done ⏳ (".toList
        ++ (toString c).toList ++ "/".toList ++ (toString t).toList
        ++ " pages)".toList
  | .noTable => "⚠️ I couldn\x27t detect any tables in this PDF.".toList
  | .complete => "✅ Conversion complete! Sending your Excel file…".toList
  | .genericError =>
      "❌ An error occurred while converting your PDF. Please try again later.".toList

/-- Server-side log events of the worker relevant to the specification. -/
inductive Log where
  | clampWarning (total : Nat)
  | extractError (page : Nat)
  | progressEditFailed
  | unhandledError
  | deleteFailed
deriving DecidableEq

/-- Terminal branch of one worker run. -/
inductive Outcome where
  | completed
  | cancelled (n : Nat)
  | emptyDoc
  | noTable
  | genericError
deriving DecidableEq

/-- The document and cancellation signal a run sees: total declared pages,
the table extracted per 0-indexed page (`none` when pdfplumber finds no
table), which per-page extractions raise (caught and treated as no table,
app.py lines 110-119), and the value of `cancel_event.is_set()` at the check
preceding each 0-indexed page (app.py line 98). -/
structure RunInput where
  totalPages : Nat
  pageTables : Nat → Option (List Row)
  extractRaises : Nat → Bool
  cancelAtCheck : Nat → Bool

/-- Which external calls fail: `editFails n` makes the n-th
`edit_message_text` call raise, and the other flags make `pdfplumber.open`,
`wb.save`, `send_document` and the two `os.remove` calls raise. -/
structure FaultCfg where
  editFails : Nat → Bool
  openFails : Bool
  saveFails : Bool
  sendFails : Bool
  removePdfFails : Bool
  removeExcelFails : Bool

def noFaults : FaultCfg := ⟨fun _ => false, false, false, false, false, false⟩

/-- Mutable state threaded through the try body: attempted status edits in
order, the edit call counter, the sheet rows appended so far, and the
0-indexed pages processed so far. -/
structure St where
  edits : List Msg
  nEdit : Nat
  rows : List Row
  processed : List Nat
deriving DecidableEq

/-- One `bot.edit_message_text` call: the attempt is always recorded, in
order; the Bool says whether delivery succeeded, per the fault schedule. -/
def doEdit (ef : Nat → Bool) (st : St) (m : Msg) : St × Bool :=
  ({ st with edits := st.edits ++ [m], nEdit := st.nEdit + 1 }, !ef st.nEdit)

/-- `page.extract_table()` as the loop consumes it: an exception is caught
and treated as no table; `if table:` then appends every row of the table
(an empty table is falsy and appends nothing, which coincides with appending
the empty list of rows). -/
def tableAt (pt : Nat → Option (List Row)) (er : Nat → Bool) (i : Nat) :
    List Row :=
  if er i then [] else (pt i).getD []

inductive LoopExit where
  | finished
  | cancelledOk (i : Nat)
  | raised
deriving DecidableEq

structure LoopRes where
  st : St
  logs : List Log
  exitc : LoopExit
deriving DecidableEq

/-- The page loop of app.py lines 97-139: before 0-indexed page `i` it polls
the cancel event (a set event sends the cancellation edit — unguarded, so its
failure raises — and returns); otherwise it extracts the table, appends its
rows, and at the throttling points (`page_num % step == 0 or page_num ==
total_pages_to_process`) issues a progress edit whose failure is only
logged.  `rem` is the number of pages still to go and `tot` the clamped page
count. -/
def loop (pt : Nat → Option (List Row)) (er ca ef : Nat → Bool)
    (tot step : Nat) : Nat → Nat → St → LoopRes
  | 0, _i, st => ⟨st, [], .finished⟩
  | rem+1, i, st =>
    if ca i then
      let e := doEdit ef st (.cancelled i tot)
      ⟨e.1, [], if e.2 then .cancelledOk i else .raised⟩
    else
      let st1 : St := { st with processed := st.processed ++ [i],
                                rows := st.rows ++ tableAt pt er i }
      let lg1 : List Log := if er i then [.extractError i] else []
      if (i+1) % step == 0 || (i+1) == tot then
        let e := doEdit ef st1 (.progress ((i+1) * 100 / tot) (i+1) tot)
        let lg2 : List Log := if e.2 then [] else [.progressEditFailed]
        let res := loop pt er ca ef tot step rem (i+1) e.1
        ⟨res.st, lg1 ++ lg2 ++ res.logs, res.exitc⟩
      else
        let res := loop pt er ca ef tot step rem (i+1) st1
        ⟨res.st, lg1 ++ res.logs, res.exitc⟩

/-! openpyxl sheet semantics for the empty-sheet test of app.py line 142.
`ws.append` creates a cell for every value of the appended row (a `None`
value still creates a cell); `ws.max_row` is the largest row index holding a
cell, defaulting to 1 on a cell-less sheet; `ws[1]` yields the cells of row
1, whose values are those of the first appended row (auto-created cells hold
`None`). -/

/-- `ws.max_row` after appending `rows` in order to a fresh sheet. -/
def wsMaxRow (rows : List Row) : Nat :=
  (rows.enum.filterMap fun p =>
    if p.2.isEmpty then none else some (p.1 + 1)).foldl max 1

/-- The values of `ws[1]` after appending `rows` to a fresh sheet. -/
def wsRow1 (rows : List Row) : Row := rows.headD []

/-- The no-table test of app.py line 142:
`ws.max_row == 1 and all(cell.value is None for cell in ws[1])`. -/
def noTableCheck (rows : List Row) : Bool :=
  (wsMaxRow rows == 1) && (wsRow1 rows).all fun c => c.isNone

inductive BodyExit where
  | emptyRet
  | cancelRet (i : Nat)
  | noTableRet
  | completedRet
  | raised
deriving DecidableEq

structure BodyRes where
  st : St
  logs : List Log
  exitc : BodyExit
  outputSaved : Bool
deriving DecidableEq

/-- The try body of process_pdf_async (app.py lines 61-167), in source
order.  Unguarded external calls that fail exit with `raised` (handled by the
except clause); the early `return`s of the source are the other exits. -/
def body (inp : RunInput) (ef : Nat → Bool)
    (openFails saveFails sendFails : Bool) : BodyRes :=
  let st0 : St := ⟨[], 0, [], []⟩
  let e1 := doEdit ef st0 .processing
  if !e1.2 then ⟨e1.1, [], .raised, false⟩
  else if openFails then ⟨e1.1, [], .raised, false⟩
  else if inp.totalPages == 0 then
    let e2 := doEdit ef e1.1 .empty
    ⟨e2.1, [], if e2.2 then .emptyRet else .raised, false⟩
  else
    let clampLogs : List Log :=
      if MAX_PAGES < inp.totalPages then [.clampWarning inp.totalPages] else []
    let tot := min inp.totalPages MAX_PAGES
    let step := max 1 (tot / PROGRESS_STEPS)
    let res := loop inp.pageTables inp.extractRaises inp.cancelAtCheck ef
        tot step tot 0 e1.1
    match res.exitc with
    | .cancelledOk i => ⟨res.st, clampLogs ++ res.logs, .cancelRet i, false⟩
    | .raised => ⟨res.st, clampLogs ++ res.logs, .raised, false⟩
    | .finished =>
      if noTableCheck res.st.rows then
        let e3 := doEdit ef res.st .noTable
        ⟨e3.1, clampLogs ++ res.logs,
         if e3.2 then .noTableRet else .raised, false⟩
      else if saveFails then ⟨res.st, clampLogs ++ res.logs, .raised, false⟩
      else
        let e4 := doEdit ef res.st .complete
        if !e4.2 then ⟨e4.1, clampLogs ++ res.logs, .raised, true⟩
        else if sendFails then ⟨e4.1, clampLogs ++ res.logs, .raised, true⟩
        else ⟨e4.1, clampLogs ++ res.logs, .completedRet, true⟩

def outcomeOf : BodyExit → Outcome
  | .emptyRet => .emptyDoc
  | .cancelRet i => .cancelled i
  | .noTableRet => .noTable
  | .completedRet => .completed
  | .raised => .genericError

/-- The artifact deletion of the finally block (app.py lines 184-190): both
removals live in one `try`, so a failing source removal also skips the output
removal; failures are logged and swallowed.  Returns the post-cleanup
(sourceExists, outputExists, extra logs); before cleanup the source exists
(it was downloaded) and the output exists iff `wb.save` ran. -/
def finallyFiles (removePdfFails removeExcelFails outputSaved : Bool) :
    Bool × Bool × List Log :=
  if removePdfFails then (true, outputSaved, [.deleteFailed])
  else if outputSaved && removeExcelFails then (false, true, [.deleteFailed])
  else (false, false, [])

/-- Complete observable result of one worker run. -/
structure RunResult where
  edits : List Msg
  logs : List Log
  processed : List Nat
  rows : List Row
  sentDoc : Bool
  outcome : Outcome
  sourceExists : Bool
  outputExists : Bool
  registryEntry : Bool
deriving DecidableEq

/-- process_pdf_async (app.py lines 48-190): the try body, the except
handler — which logs and attempts one generic failure edit whose own failure
is swallowed (lines 169-179) — and the finally block, which pops the
registry entry and then deletes both artifacts (lines 180-190).  Every exit
path of the body flows through the finally semantics, as Python guarantees. -/
def processPdfAsync (inp : RunInput) (cfg : FaultCfg) : RunResult :=
  let b := body inp cfg.editFails cfg.openFails cfg.saveFails cfg.sendFails
  let st2 := if b.exitc == .raised
    then (doEdit cfg.editFails b.st .genericError).1 else b.st
  let handlerLogs : List Log :=
    if b.exitc == .raised then [.unhandledError] else []
  let fin := finallyFiles cfg.removePdfFails cfg.removeExcelFails b.outputSaved
  { edits := st2.edits
    logs := b.logs ++ handlerLogs ++ fin.2.2
    processed := st2.processed
    rows := st2.rows
    sentDoc := b.exitc == .completedRet
    outcome := outcomeOf b.exitc
    sourceExists := fin.1
    outputExists := fin.2.1
    registryEntry := false }

/-! ## Claim C2: unconditional cleanup -/

/-- Claim C2: on every run — any document, any cancellation pattern, any
combination of notification, open, save, send and deletion faults — the
finally block executes: the registry entry is gone afterwards; when the
deletions do not fault, both artifacts are absent; deletion faults are
logged and change neither the terminal outcome nor anything the client was
told (edits and document delivery are identical to the same run without
deletion faults). -/
theorem C2_cleanup (inp : RunInput) (cfg : FaultCfg) :
    (processPdfAsync inp cfg).registryEntry = false
    ∧ (cfg.removePdfFails = false → cfg.removeExcelFails = false →
        (processPdfAsync inp cfg).sourceExists = false
        ∧ (processPdfAsync inp cfg).outputExists = false)
    ∧ (processPdfAsync inp cfg).outcome =
        (processPdfAsync inp
          { cfg with removePdfFails := false, removeExcelFails := false }).outcome
    ∧ (processPdfAsync inp cfg).edits =
        (processPdfAsync inp
          { cfg with removePdfFails := false, removeExcelFails := false }).edits
    ∧ (processPdfAsync inp cfg).sentDoc =
        (processPdfAsync inp
          { cfg with removePdfFails := false, removeExcelFails := false }).sentDoc
    ∧ (cfg.removePdfFails = true →
        Log.deleteFailed ∈ (processPdfAsync inp cfg).logs) := by
  refine ⟨rfl, ?_, rfl, rfl, rfl, ?_⟩
  · intro h1 h2
    simp only [processPdfAsync, finallyFiles, h1, h2]
    simp
  · intro h1
    simp only [processPdfAsync, finallyFiles, h1]
    simp

/-- Claim C2 witness: a concrete run whose source deletion faults still ends
with the registry entry removed and the deletion failure logged. -/
theorem C2_cleanup_witness :
    (processPdfAsync ⟨1, fun _ => some [[some "x"]], fun _ => false, fun _ => false⟩
        ⟨fun _ => false, false, false, false, true, false⟩).registryEntry = false
    ∧ Log.deleteFailed ∈
        (processPdfAsync ⟨1, fun _ => some [[some "x"]], fun _ => false, fun _ => false⟩
          ⟨fun _ => false, false, false, false, true, false⟩).logs :=
  ⟨(C2_cleanup ⟨1, fun _ => some [[some "x"]], fun _ => false, fun _ => false⟩
      ⟨fun _ => false, false, false, false, true, false⟩).1,
   (C2_cleanup ⟨1, fun _ => some [[some "x"]], fun _ => false, fun _ => false⟩
      ⟨fun _ => false, false, false, false, true, false⟩).2.2.2.2.2 rfl⟩

/-! ## Claim C8: empty document -/

/-- Claim C8: a document declaring zero pages makes the worker send the
empty-document message and return before the page loop (app.py lines 77-83):
the run ends in the empty-document failure, no page is ever processed, the
client received exactly the start notice and the empty-document message, and
the latter is the final notification. -/
theorem C8_empty_doc (pt : Nat → Option (List Row)) (er ca : Nat → Bool) :
    (processPdfAsync ⟨0, pt, er, ca⟩ noFaults).outcome = .emptyDoc
    ∧ (processPdfAsync ⟨0, pt, er, ca⟩ noFaults).processed = []
    ∧ (processPdfAsync ⟨0, pt, er, ca⟩ noFaults).edits = [Msg.processing, Msg.empty]
    ∧ (processPdfAsync ⟨0, pt, er, ca⟩ noFaults).edits.getLast? = some Msg.empty
    ∧ (processPdfAsync ⟨0, pt, er, ca⟩ noFaults).sentDoc = false := by
  exact ⟨rfl, rfl, rfl, rfl, rfl⟩

/-! ## Characterizing the page loop -/

/-- The rows the loop appends while processing pages `i, i+1, ..., i+m-1`. -/
def collectRows (pt : Nat → Option (List Row)) (er : Nat → Bool) :
    Nat → Nat → List Row
  | _i, 0 => []
  | i, m+1 => tableAt pt er i ++ collectRows pt er (i+1) m

/-- The progress edits the loop issues while processing pages
`i, ..., i+m-1`. -/
def progressMsgsFrom (tot step : Nat) : Nat → Nat → List Msg
  | _i, 0 => []
  | i, m+1 =>
    (if (i+1) % step == 0 || (i+1) == tot
      then [Msg.progress ((i+1) * 100 / tot) (i+1) tot] else [])
      ++ progressMsgsFrom tot step (i+1) m

lemma loop_edits_nocancel (pt : Nat → Option (List Row)) (er ca ef : Nat → Bool)
    (tot step : Nat) (hca : ∀ j, ca j = false) :
    ∀ m i st, (loop pt er ca ef tot step m i st).st.edits
        = st.edits ++ progressMsgsFrom tot step i m := by
  intro m
  induction m with
  | zero => intro i st; simp [loop, progressMsgsFrom]
  | succ m ih =>
    intro i st
    cases hcond : ((i+1) % step == 0 || (i+1) == tot) with
    | true =>
      simp only [loop, hca i, Bool.false_eq_true, if_false, hcond, if_true]
      rw [ih]
      simp [doEdit, progressMsgsFrom, hcond]
    | false =>
      simp only [loop, hca i, Bool.false_eq_true, if_false, hcond]
      rw [ih]
      simp [progressMsgsFrom, hcond]

lemma loop_rows_nocancel (pt : Nat → Option (List Row)) (er ca ef : Nat → Bool)
    (tot step : Nat) (hca : ∀ j, ca j = false) :
    ∀ m i st, (loop pt er ca ef tot step m i st).st.rows
        = st.rows ++ collectRows pt er i m := by
  intro m
  induction m with
  | zero => intro i st; simp [loop, collectRows]
  | succ m ih =>
    intro i st
    cases hcond : ((i+1) % step == 0 || (i+1) == tot) with
    | true =>
      simp only [loop, hca i, Bool.false_eq_true, if_false, hcond, if_true]
      rw [ih]
      simp [doEdit, collectRows]
    | false =>
      simp only [loop, hca i, Bool.false_eq_true, if_false, hcond]
      rw [ih]
      simp [collectRows]

lemma loop_processed_nocancel (pt : Nat → Option (List Row)) (er ca ef : Nat → Bool)
    (tot step : Nat) (hca : ∀ j, ca j = false) :
    ∀ m i st, (loop pt er ca ef tot step m i st).st.processed
        = st.processed ++ List.range' i m := by
  intro m
  induction m with
  | zero => intro i st; simp [loop]
  | succ m ih =>
    intro i st
    cases hcond : ((i+1) % step == 0 || (i+1) == tot) with
    | true =>
      simp only [loop, hca i, Bool.false_eq_true, if_false, hcond, if_true]
      rw [ih]
      simp [doEdit, List.range'_succ]
    | false =>
      simp only [loop, hca i, Bool.false_eq_true, if_false, hcond]
      rw [ih]
      simp [List.range'_succ]

lemma loop_exitc_nocancel (pt : Nat → Option (List Row)) (er ca ef : Nat → Bool)
    (tot step : Nat) (hca : ∀ j, ca j = false) :
    ∀ m i st, (loop pt er ca ef tot step m i st).exitc = .finished := by
  intro m
  induction m with
  | zero => intro i st; simp [loop]
  | succ m ih =>
    intro i st
    cases hcond : ((i+1) % step == 0 || (i+1) == tot) with
    | true =>
      simp only [loop, hca i, Bool.false_eq_true, if_false, hcond, if_true]
      exact ih (i+1) _
    | false =>
      simp only [loop, hca i, Bool.false_eq_true, if_false, hcond]
      exact ih (i+1) _

/-- Characterization of a run of the loop whose cancel flag is first observed
set at the check before 0-indexed page `i + k` (with no fault injection):
pages `i, ..., i+k-1` are processed, the cancellation edit is issued last and
the loop exits through the cancellation return. -/
lemma loop_cancel_char (pt : Nat → Option (List Row)) (er ca : Nat → Bool)
    (tot step : Nat) :
    ∀ k rem i st, k < rem →
      (∀ j, j < k → ca (i + j) = false) → ca (i + k) = true →
      ((loop pt er ca (fun _ => false) tot step rem i st).st.edits
          = st.edits ++ progressMsgsFrom tot step i k
              ++ [Msg.cancelled (i + k) tot])
      ∧ ((loop pt er ca (fun _ => false) tot step rem i st).st.processed
          = st.processed ++ List.range' i k)
      ∧ ((loop pt er ca (fun _ => false) tot step rem i st).exitc
          = .cancelledOk (i + k)) := by
  intro k
  induction k with
  | zero =>
    intro rem i st hrem _hb hat
    cases rem with
    | zero => omega
    | succ r =>
      rw [Nat.add_zero] at hat
      simp [loop, hat, doEdit, progressMsgsFrom]
  | succ k ih =>
    intro rem i st hrem hb hat
    cases rem with
    | zero => omega
    | succ r =>
      have hci : ca i = false := by
        have := hb 0 (by omega)
        rwa [Nat.add_zero] at this
      have hb' : ∀ j, j < k → ca ((i+1) + j) = false := by
        intro j hj
        have := hb (j+1) (by omega)
        rwa [show i + (j+1) = (i+1) + j by omega] at this
      have hat' : ca ((i+1) + k) = true := by
        rwa [show i + (k+1) = (i+1) + k by omega] at hat
      have hik : (i+1) + k = i + (k+1) := by omega
      cases hcond : ((i+1) % step == 0 || (i+1) == tot) with
      | true =>
        obtain ⟨he, hp, hx⟩ := ih r (i+1)
          ((doEdit (fun _ => false)
            { st with processed := st.processed ++ [i],
                      rows := st.rows ++ tableAt pt er i }
            (Msg.progress ((i + 1) * 100 / tot) (i + 1) tot)).1)
          (by omega) hb' hat'
        simp only [loop, hci, Bool.false_eq_true, if_false, hcond, if_true]
        rw [show i + (k+1) = (i+1) + k from by omega]
        refine ⟨?_, ?_, ?_⟩
        · rw [he]
          simp [doEdit, progressMsgsFrom, hcond]
        · rw [hp]
          simp [doEdit, List.range'_succ]
        · exact hx
      | false =>
        obtain ⟨he, hp, hx⟩ := ih r (i+1)
          { st with processed := st.processed ++ [i],
                    rows := st.rows ++ tableAt pt er i }
          (by omega) hb' hat'
        simp only [loop, hci, Bool.false_eq_true, if_false, hcond]
        rw [show i + (k+1) = (i+1) + k from by omega]
        refine ⟨?_, ?_, ?_⟩
        · rw [he]
          simp [progressMsgsFrom, hcond]
        · rw [hp]
          simp [List.range'_succ]
        · exact hx

lemma getLast?_app {α : Type} (l : List α) (a : α) :
    (l ++ [a]).getLast? = some a :=
  List.getLast?_concat l

/-- Characterization of a fault-free, never-cancelled run on a non-empty
document: the clamped page range is processed in order, the sheet holds
exactly the collected rows, the no-table test decides between the no-table
failure and completion-with-send, and an over-limit page count is logged as
the clamp warning. -/
lemma run_nocancel_char (inp : RunInput) (h0 : inp.totalPages ≠ 0)
    (hca : ∀ j, inp.cancelAtCheck j = false) :
    (processPdfAsync inp noFaults).processed
        = List.range' 0 (min inp.totalPages MAX_PAGES)
    ∧ (processPdfAsync inp noFaults).rows
        = collectRows inp.pageTables inp.extractRaises 0 (min inp.totalPages MAX_PAGES)
    ∧ (noTableCheck (collectRows inp.pageTables inp.extractRaises 0
          (min inp.totalPages MAX_PAGES)) = true →
        (processPdfAsync inp noFaults).outcome = .noTable
        ∧ (processPdfAsync inp noFaults).sentDoc = false
        ∧ (processPdfAsync inp noFaults).edits
            = [Msg.processing]
              ++ progressMsgsFrom (min inp.totalPages MAX_PAGES)
                  (max 1 (min inp.totalPages MAX_PAGES / PROGRESS_STEPS)) 0
                  (min inp.totalPages MAX_PAGES)
              ++ [Msg.noTable])
    ∧ (noTableCheck (collectRows inp.pageTables inp.extractRaises 0
          (min inp.totalPages MAX_PAGES)) = false →
        (processPdfAsync inp noFaults).outcome = .completed
        ∧ (processPdfAsync inp noFaults).sentDoc = true
        ∧ (processPdfAsync inp noFaults).edits
            = [Msg.processing]
              ++ progressMsgsFrom (min inp.totalPages MAX_PAGES)
                  (max 1 (min inp.totalPages MAX_PAGES / PROGRESS_STEPS)) 0
                  (min inp.totalPages MAX_PAGES)
              ++ [Msg.complete])
    ∧ (MAX_PAGES < inp.totalPages →
        Log.clampWarning inp.totalPages ∈ (processPdfAsync inp noFaults).logs) := by
  have hbeq : (inp.totalPages == 0) = false := by simp [h0]
  have hE := loop_edits_nocancel inp.pageTables inp.extractRaises inp.cancelAtCheck
    (fun _ => false) (min inp.totalPages MAX_PAGES)
    (max 1 (min inp.totalPages MAX_PAGES / PROGRESS_STEPS)) hca
    (min inp.totalPages MAX_PAGES) 0 ⟨[Msg.processing], 1, [], []⟩
  have hR := loop_rows_nocancel inp.pageTables inp.extractRaises inp.cancelAtCheck
    (fun _ => false) (min inp.totalPages MAX_PAGES)
    (max 1 (min inp.totalPages MAX_PAGES / PROGRESS_STEPS)) hca
    (min inp.totalPages MAX_PAGES) 0 ⟨[Msg.processing], 1, [], []⟩
  have hP := loop_processed_nocancel inp.pageTables inp.extractRaises inp.cancelAtCheck
    (fun _ => false) (min inp.totalPages MAX_PAGES)
    (max 1 (min inp.totalPages MAX_PAGES / PROGRESS_STEPS)) hca
    (min inp.totalPages MAX_PAGES) 0 ⟨[Msg.processing], 1, [], []⟩
  have hX := loop_exitc_nocancel inp.pageTables inp.extractRaises inp.cancelAtCheck
    (fun _ => false) (min inp.totalPages MAX_PAGES)
    (max 1 (min inp.totalPages MAX_PAGES / PROGRESS_STEPS)) hca
    (min inp.totalPages MAX_PAGES) 0 ⟨[Msg.processing], 1, [], []⟩
  rcases hL : loop inp.pageTables inp.extractRaises inp.cancelAtCheck (fun _ => false)
      (min inp.totalPages MAX_PAGES)
      (max 1 (min inp.totalPages MAX_PAGES / PROGRESS_STEPS))
      (min inp.totalPages MAX_PAGES) 0 ⟨[Msg.processing], 1, [], []⟩
    with ⟨⟨le, ln, lr, lp⟩, llogs, lexit⟩
  rw [hL] at hE hR hP hX
  dsimp only at hE hR hP hX
  simp only [List.nil_append] at hE hR hP
  subst hE
  subst hR
  subst hP
  subst hX
  simp only [processPdfAsync, body, noFaults, doEdit, hbeq, List.nil_append,
    Nat.zero_add, Bool.not_true, Bool.not_false, Bool.false_eq_true, if_false,
    if_true]
  rw [hL]
  dsimp only
  by_cases hnt : noTableCheck (collectRows inp.pageTables inp.extractRaises 0
      (min inp.totalPages MAX_PAGES)) = true
  · refine ⟨?_, ?_, ?_, ?_, ?_⟩
    · simp [hnt]
    · simp [hnt]
    · intro _
      refine ⟨?_, ?_, ?_⟩ <;> simp [hnt, outcomeOf]
    · intro h
      rw [h] at hnt
      exact absurd hnt (by simp)
    · intro hclamp
      simp [hnt, hclamp]
  · have hnt' : noTableCheck (collectRows inp.pageTables inp.extractRaises 0
        (min inp.totalPages MAX_PAGES)) = false := by
      revert hnt
      cases noTableCheck (collectRows inp.pageTables inp.extractRaises 0
        (min inp.totalPages MAX_PAGES)) <;> simp
    refine ⟨?_, ?_, ?_, ?_, ?_⟩
    · simp [hnt']
    · simp [hnt']
    · intro h
      rw [h] at hnt'
      exact absurd hnt' (by simp)
    · intro _
      refine ⟨?_, ?_, ?_⟩ <;> simp [hnt', outcomeOf]
    · intro hclamp
      simp [hnt', hclamp]

/-- Characterization of a fault-free run whose cancel flag is first observed
set at the check before 0-indexed page `k`, `k` within the clamped range:
the run is cancelled there, having processed exactly pages `0..k-1`, the
cancellation edit is the last notification, and nothing is sent. -/
lemma run_cancel_char (inp : RunInput) (k : Nat)
    (hk : k < min inp.totalPages MAX_PAGES)
    (hb : ∀ j, j < k → inp.cancelAtCheck j = false)
    (hat : inp.cancelAtCheck k = true) :
    (processPdfAsync inp noFaults).outcome = .cancelled k
    ∧ (processPdfAsync inp noFaults).processed = List.range' 0 k
    ∧ (processPdfAsync inp noFaults).edits
        = [Msg.processing]
          ++ progressMsgsFrom (min inp.totalPages MAX_PAGES)
              (max 1 (min inp.totalPages MAX_PAGES / PROGRESS_STEPS)) 0 k
          ++ [Msg.cancelled k (min inp.totalPages MAX_PAGES)]
    ∧ (processPdfAsync inp noFaults).sentDoc = false
    ∧ (processPdfAsync inp noFaults).outputExists = false := by
  have h0 : inp.totalPages ≠ 0 := by
    intro h
    rw [h] at hk
    simp at hk
  have hbeq : (inp.totalPages == 0) = false := by simp [h0]
  obtain ⟨hE, hP, hX⟩ := loop_cancel_char inp.pageTables inp.extractRaises
    inp.cancelAtCheck (min inp.totalPages MAX_PAGES)
    (max 1 (min inp.totalPages MAX_PAGES / PROGRESS_STEPS))
    k (min inp.totalPages MAX_PAGES) 0 ⟨[Msg.processing], 1, [], []⟩ hk
    (by intro j hj; simpa using hb j hj) (by simpa using hat)
  rcases hL : loop inp.pageTables inp.extractRaises inp.cancelAtCheck (fun _ => false)
      (min inp.totalPages MAX_PAGES)
      (max 1 (min inp.totalPages MAX_PAGES / PROGRESS_STEPS))
      (min inp.totalPages MAX_PAGES) 0 ⟨[Msg.processing], 1, [], []⟩
    with ⟨⟨le, ln, lr, lp⟩, llogs, lexit⟩
  rw [hL] at hE hP hX
  dsimp only at hE hP hX
  simp only [List.nil_append, Nat.zero_add] at hE hP hX
  subst hE
  subst hP
  subst hX
  simp only [processPdfAsync, body, noFaults, doEdit, hbeq, List.nil_append,
    Nat.zero_add, Bool.not_true, Bool.not_false, Bool.false_eq_true, if_false,
    if_true]
  rw [hL]
  dsimp only
  refine ⟨by simp [outcomeOf], by simp, by simp, by simp, by simp [finallyFiles]⟩

/-- Claim C3: whenever the cancel event is first observed set at the check
preceding 0-indexed page `k` within the clamped range (so pages 1..k were
processed, 1-indexed, and the signal arrived after page k was under way), the
job ends Cancelled: no page from k+1 onward is processed, the processed count
stays below the page total, the cancellation edit is the last notification,
and its text reports the processed count.  Instantiated at the spec scenario
(25 pages, signal observed at check 13) it yields 13 processed pages and a
message referencing "13". -/
theorem C3_cancellation (inp : RunInput) (k : Nat)
    (hk : k < min inp.totalPages MAX_PAGES)
    (hb : ∀ j, j < k → inp.cancelAtCheck j = false)
    (hat : inp.cancelAtCheck k = true) :
    (processPdfAsync inp noFaults).outcome = .cancelled k
    ∧ (processPdfAsync inp noFaults).processed = List.range' 0 k
    ∧ (processPdfAsync inp noFaults).processed.length = k
    ∧ (processPdfAsync inp noFaults).processed.length < inp.totalPages
    ∧ (processPdfAsync inp noFaults).edits.getLast?
        = some (Msg.cancelled k (min inp.totalPages MAX_PAGES))
    ∧ containsSub (toString k).toList
        (renderMsg (Msg.cancelled k (min inp.totalPages MAX_PAGES))) = true
    ∧ (processPdfAsync inp noFaults).sentDoc = false
    ∧ (processPdfAsync inp noFaults).outputExists = false := by
  obtain ⟨ho, hp, he, hs, hout⟩ := run_cancel_char inp k hk hb hat
  have hlen : (processPdfAsync inp noFaults).processed.length = k := by
    rw [hp]
    simp
  refine ⟨ho, hp, hlen, ?_, ?_, ?_, hs, hout⟩
  · rw [hlen]
    have := min_le_left inp.totalPages MAX_PAGES
    omega
  · rw [he]
    exact getLast?_app _ _
  · exact containsSub_append_self (toString k).toList _ _

/-- Claim C3 witness: the spec scenario — 25 pages, rows on pages 1-10 and
20-25 (1-indexed), cancel event observed set at the check before 0-indexed
page 13 — ends Cancelled with 13 pages processed and a cancellation message
whose text contains "13". -/
theorem C3_cancellation_witness :
    (13 < min 25 MAX_PAGES)
    ∧ (processPdfAsync
        ⟨25, fun i => if i < 10 || (19 ≤ i && i < 25) then some [[some "r"]] else none,
         fun _ => false, fun i => decide (13 ≤ i)⟩ noFaults).outcome = .cancelled 13
    ∧ (processPdfAsync
        ⟨25, fun i => if i < 10 || (19 ≤ i && i < 25) then some [[some "r"]] else none,
         fun _ => false, fun i => decide (13 ≤ i)⟩ noFaults).processed.length = 13
    ∧ containsSub (toString 13).toList
        (renderMsg (Msg.cancelled 13 (min 25 MAX_PAGES))) = true := by
  have h := C3_cancellation
    ⟨25, fun i => if i < 10 || (19 ≤ i && i < 25) then some [[some "r"]] else none,
     fun _ => false, fun i => decide (13 ≤ i)⟩ 13
    (by decide)
    (by intro j hj; simp only [decide_eq_false_iff_not]; omega)
    (by decide)
  exact ⟨by decide, h.1, h.2.2.1, h.2.2.2.2.2.1⟩

/-! ## Claims C5 and C6 -/

/-- Claim C5 counterexample: a one-page document whose extraction yields one
row with a single empty cell produced one row (not zero), yet the run ends in
the no-table failure and nothing is sent — the sheet test
`ws.max_row == 1 and all(cell.value is None for cell in ws[1])` cannot tell
"no rows" from "exactly one all-empty row". -/
theorem C5_counterexample :
    (processPdfAsync ⟨1, fun _ => some [[none]], fun _ => false, fun _ => false⟩
        noFaults).outcome = .noTable
    ∧ (processPdfAsync ⟨1, fun _ => some [[none]], fun _ => false, fun _ => false⟩
        noFaults).rows = [[none]]
    ∧ ([[ (none : Cell) ]] : List Row) ≠ []
    ∧ (processPdfAsync ⟨1, fun _ => some [[none]], fun _ => false, fun _ => false⟩
        noFaults).sentDoc = false := by
  refine ⟨by decide, by decide, by decide, by decide⟩

/-- Claim C5 amended: for a non-empty document, a fault-free uncancelled run
ends in the no-table failure (distinct from the empty-document failure) with
nothing sent exactly when the sheet test of app.py line 142 fires — that is,
when zero rows were appended, or every appended cell sits in row 1 with row 1
entirely empty (in particular a single row all of whose cells are empty);
otherwise the workbook is saved and sent and the run completes. -/
theorem C5_amended (inp : RunInput) (h0 : inp.totalPages ≠ 0)
    (hca : ∀ j, inp.cancelAtCheck j = false) :
    (noTableCheck (collectRows inp.pageTables inp.extractRaises 0
          (min inp.totalPages MAX_PAGES)) = true →
        (processPdfAsync inp noFaults).outcome = .noTable
        ∧ (processPdfAsync inp noFaults).sentDoc = false
        ∧ (processPdfAsync inp noFaults).edits.getLast? = some Msg.noTable)
    ∧ (noTableCheck (collectRows inp.pageTables inp.extractRaises 0
          (min inp.totalPages MAX_PAGES)) = false →
        (processPdfAsync inp noFaults).outcome = .completed
        ∧ (processPdfAsync inp noFaults).sentDoc = true
        ∧ (processPdfAsync inp noFaults).edits.getLast? = some Msg.complete)
    ∧ (processPdfAsync inp noFaults).rows
        = collectRows inp.pageTables inp.extractRaises 0
            (min inp.totalPages MAX_PAGES) := by
  obtain ⟨hP, hR, hNT, hC, _hW⟩ := run_nocancel_char inp h0 hca
  refine ⟨?_, ?_, hR⟩
  · intro h
    obtain ⟨h1, h2, h3⟩ := hNT h
    exact ⟨h1, h2, by rw [h3]; exact getLast?_app _ _⟩
  · intro h
    obtain ⟨h1, h2, h3⟩ := hC h
    exact ⟨h1, h2, by rw [h3]; exact getLast?_app _ _⟩

/-- Claim C5 amended witness: a one-page document with one genuine row
completes and is sent; with no tables at all the run ends in the no-table
failure with nothing sent. -/
theorem C5_amended_witness :
    ((processPdfAsync ⟨1, fun _ => some [[some "x"]], fun _ => false, fun _ => false⟩
        noFaults).outcome = .completed
      ∧ (processPdfAsync ⟨1, fun _ => some [[some "x"]], fun _ => false, fun _ => false⟩
          noFaults).sentDoc = true)
    ∧ ((processPdfAsync ⟨1, fun _ => none, fun _ => false, fun _ => false⟩
        noFaults).outcome = .noTable
      ∧ (processPdfAsync ⟨1, fun _ => none, fun _ => false, fun _ => false⟩
          noFaults).sentDoc = false) := by
  have h1 := (C5_amended ⟨1, fun _ => some [[some "x"]], fun _ => false, fun _ => false⟩
    (by decide) (fun _ => rfl)).2.1 (by decide)
  have h2 := (C5_amended ⟨1, fun _ => none, fun _ => false, fun _ => false⟩
    (by decide) (fun _ => rfl)).1 (by decide)
  exact ⟨⟨h1.1, h1.2.1⟩, ⟨h2.1, h2.2.1⟩⟩

/-- For any page count at or above the hard ceiling, a fault-free uncancelled
run processes exactly the first `MAX_PAGES` pages, logs the clamp warning when
strictly above the ceiling, reaches a normal data outcome, and is
client-indistinguishable from a run on a document of exactly `MAX_PAGES`
pages with the same page contents: same edits, same outcome, same delivery. -/
lemma clamp_client_invisible (t : Nat) (pt : Nat → Option (List Row))
    (er : Nat → Bool) (ht : MAX_PAGES < t) :
    (processPdfAsync ⟨t, pt, er, fun _ => false⟩ noFaults).processed
        = List.range' 0 MAX_PAGES
    ∧ Log.clampWarning t ∈ (processPdfAsync ⟨t, pt, er, fun _ => false⟩ noFaults).logs
    ∧ ((processPdfAsync ⟨t, pt, er, fun _ => false⟩ noFaults).outcome = .completed
        ∨ (processPdfAsync ⟨t, pt, er, fun _ => false⟩ noFaults).outcome = .noTable)
    ∧ (processPdfAsync ⟨t, pt, er, fun _ => false⟩ noFaults).edits
        = (processPdfAsync ⟨MAX_PAGES, pt, er, fun _ => false⟩ noFaults).edits
    ∧ (processPdfAsync ⟨t, pt, er, fun _ => false⟩ noFaults).outcome
        = (processPdfAsync ⟨MAX_PAGES, pt, er, fun _ => false⟩ noFaults).outcome
    ∧ (processPdfAsync ⟨t, pt, er, fun _ => false⟩ noFaults).sentDoc
        = (processPdfAsync ⟨MAX_PAGES, pt, er, fun _ => false⟩ noFaults).sentDoc := by
  have h0 : t ≠ 0 := by
    have : (0:Nat) < MAX_PAGES := by decide
    omega
  have hA := run_nocancel_char ⟨t, pt, er, fun _ => false⟩ h0 (fun _ => rfl)
  have hB := run_nocancel_char ⟨MAX_PAGES, pt, er, fun _ => false⟩
    (show MAX_PAGES ≠ 0 by decide) (fun _ => rfl)
  dsimp only at hA hB
  have hmin : min t MAX_PAGES = MAX_PAGES := min_eq_right (le_of_lt ht)
  have hmin' : min MAX_PAGES MAX_PAGES = MAX_PAGES := min_self MAX_PAGES
  rw [hmin] at hA
  rw [hmin'] at hB
  obtain ⟨hP, hR, hNT, hC, hW⟩ := hA
  obtain ⟨hP', hR', hNT', hC', _hW'⟩ := hB
  refine ⟨hP, hW ht, ?_, ?_, ?_, ?_⟩
  · cases hnt : noTableCheck (collectRows pt er 0 MAX_PAGES) with
    | true => exact Or.inr (hNT hnt).1
    | false => exact Or.inl (hC hnt).1
  · cases hnt : noTableCheck (collectRows pt er 0 MAX_PAGES) with
    | true => rw [(hNT hnt).2.2, (hNT' hnt).2.2]
    | false => rw [(hC hnt).2.2, (hC' hnt).2.2]
  · cases hnt : noTableCheck (collectRows pt er 0 MAX_PAGES) with
    | true => rw [(hNT hnt).1, (hNT' hnt).1]
    | false => rw [(hC hnt).1, (hC' hnt).1]
  · cases hnt : noTableCheck (collectRows pt er 0 MAX_PAGES) with
    | true => rw [(hNT hnt).2.1, (hNT' hnt).2.1]
    | false => rw [(hC hnt).2.1, (hC' hnt).2.1]

/-- Claim C6 amended: when the page count exceeds `MAX_PAGES`, exactly the
first `MAX_PAGES` pages are processed and the rest skipped; the clamp is
recorded as a server-side warning log and does not make the run an error (it
proceeds to a normal completed or no-table outcome); but no per-job caveat
reaches the client — the notifications, outcome and delivery are identical to
those of a document of exactly `MAX_PAGES` pages. -/
theorem C6_amended (t : Nat) (pt : Nat → Option (List Row)) (er : Nat → Bool)
    (ht : MAX_PAGES < t) :
    (processPdfAsync ⟨t, pt, er, fun _ => false⟩ noFaults).processed
        = List.range' 0 MAX_PAGES
    ∧ Log.clampWarning t ∈ (processPdfAsync ⟨t, pt, er, fun _ => false⟩ noFaults).logs
    ∧ ((processPdfAsync ⟨t, pt, er, fun _ => false⟩ noFaults).outcome = .completed
        ∨ (processPdfAsync ⟨t, pt, er, fun _ => false⟩ noFaults).outcome = .noTable)
    ∧ (processPdfAsync ⟨t, pt, er, fun _ => false⟩ noFaults).edits
        = (processPdfAsync ⟨MAX_PAGES, pt, er, fun _ => false⟩ noFaults).edits
    ∧ (processPdfAsync ⟨t, pt, er, fun _ => false⟩ noFaults).outcome
        = (processPdfAsync ⟨MAX_PAGES, pt, er, fun _ => false⟩ noFaults).outcome
    ∧ (processPdfAsync ⟨t, pt, er, fun _ => false⟩ noFaults).sentDoc
        = (processPdfAsync ⟨MAX_PAGES, pt, er, fun _ => false⟩ noFaults).sentDoc :=
  clamp_client_invisible t pt er ht

/-- Claim C6 counterexample: on a 3001-page document every client-visible
effect — the notification stream, the outcome, the delivery — is identical to
that of a 3000-page document with the same page contents, while the clamp is
recorded only in the server log; so the clamping is not surfaced to the
client at all, as a caveat or otherwise. -/
theorem C6_counterexample :
    (processPdfAsync ⟨3001, fun _ => some [[some "x"]], fun _ => false, fun _ => false⟩
        noFaults).edits
      = (processPdfAsync ⟨3000, fun _ => some [[some "x"]], fun _ => false, fun _ => false⟩
          noFaults).edits
    ∧ (processPdfAsync ⟨3001, fun _ => some [[some "x"]], fun _ => false, fun _ => false⟩
        noFaults).outcome
      = (processPdfAsync ⟨3000, fun _ => some [[some "x"]], fun _ => false, fun _ => false⟩
          noFaults).outcome
    ∧ (processPdfAsync ⟨3001, fun _ => some [[some "x"]], fun _ => false, fun _ => false⟩
        noFaults).processed = List.range' 0 MAX_PAGES
    ∧ Log.clampWarning 3001 ∈
        (processPdfAsync ⟨3001, fun _ => some [[some "x"]], fun _ => false, fun _ => false⟩
          noFaults).logs := by
  have h := clamp_client_invisible 3001 (fun _ => some [[some "x"]])
    (fun _ => false) (by decide)
  exact ⟨h.2.2.2.1, h.2.2.2.2.1, h.1, h.2.1⟩

/-- Claim C6 amended witness: the 3001-page instantiation. -/
theorem C6_amended_witness :
    MAX_PAGES < 3001
    ∧ (processPdfAsync ⟨3001, fun _ => some [[some "y"]], fun _ => false, fun _ => false⟩
        noFaults).processed = List.range' 0 MAX_PAGES
    ∧ Log.clampWarning 3001 ∈
        (processPdfAsync ⟨3001, fun _ => some [[some "y"]], fun _ => false, fun _ => false⟩
          noFaults).logs
    ∧ (processPdfAsync ⟨3001, fun _ => some [[some "y"]], fun _ => false, fun _ => false⟩
        noFaults).edits
      = (processPdfAsync ⟨3000, fun _ => some [[some "y"]], fun _ => false, fun _ => false⟩
          noFaults).edits := by
  have h := C6_amended 3001 (fun _ => some [[some "y"]]) (fun _ => false) (by decide)
  exact ⟨by decide, h.1, h.2.1, h.2.2.2.1⟩

/-! ## Claim C9: notification ordering -/

/-- The (percent, page) pairs of the progress reports among a message list. -/
def pairsOf (ms : List Msg) : List (Nat × Nat) :=
  ms.filterMap fun m =>
    match m with
    | .progress p c _t => some (p, c)
    | _ => none

/-- Terminal notifications: everything except the start notice and the
progress reports. -/
def isTerminal : Msg → Bool
  | .processing => false
  | .progress _ _ _ => false
  | _ => true

lemma pairsOf_append (a b : List Msg) :
    pairsOf (a ++ b) = pairsOf a ++ pairsOf b := by
  simp [pairsOf]

/-- Loop invariant: progress pairs carry the percent formula and pages bounded
by the current index, and are issued in non-decreasing page order. -/
lemma loop_pairs (pt : Nat → Option (List Row)) (er ca ef : Nat → Bool)
    (tot step : Nat) :
    ∀ rem i st,
      (∀ pr ∈ pairsOf st.edits, pr.1 = pr.2 * 100 / tot ∧ pr.2 ≤ i) →
      (pairsOf st.edits).Pairwise (fun a b => a.2 ≤ b.2) →
      (∀ pr ∈ pairsOf (loop pt er ca ef tot step rem i st).st.edits,
          pr.1 = pr.2 * 100 / tot)
      ∧ (pairsOf (loop pt er ca ef tot step rem i st).st.edits).Pairwise
          (fun a b => a.2 ≤ b.2) := by
  intro rem
  induction rem with
  | zero =>
    intro i st h1 h2
    exact ⟨fun pr hpr => (h1 pr hpr).1, h2⟩
  | succ rem ih =>
    intro i st h1 h2
    cases hca : ca i with
    | true =>
      simp only [loop, hca, if_true, doEdit]
      have hpp : pairsOf (st.edits ++ [Msg.cancelled i tot]) = pairsOf st.edits := by
        rw [pairsOf_append]
        simp [pairsOf]
      rw [hpp]
      exact ⟨fun pr hpr => (h1 pr hpr).1, h2⟩
    | false =>
      cases hcond : ((i+1) % step == 0 || (i+1) == tot) with
      | true =>
        have h1' : ∀ pr ∈ pairsOf ((doEdit ef
            { st with processed := st.processed ++ [i],
                      rows := st.rows ++ tableAt pt er i }
            (Msg.progress ((i+1) * 100 / tot) (i+1) tot)).1).edits,
            pr.1 = pr.2 * 100 / tot ∧ pr.2 ≤ i + 1 := by
          intro pr hpr
          simp only [doEdit] at hpr
          rw [pairsOf_append] at hpr
          rcases List.mem_append.mp hpr with h | h
          · obtain ⟨ha, hb⟩ := h1 pr h
            exact ⟨ha, by omega⟩
          · simp [pairsOf] at h
            subst h
            exact ⟨rfl, le_rfl⟩
        have h2' : (pairsOf ((doEdit ef
            { st with processed := st.processed ++ [i],
                      rows := st.rows ++ tableAt pt er i }
            (Msg.progress ((i+1) * 100 / tot) (i+1) tot)).1).edits).Pairwise
            (fun a b => a.2 ≤ b.2) := by
          simp only [doEdit]
          rw [pairsOf_append, List.pairwise_append]
          refine ⟨h2, by simp [pairsOf], ?_⟩
          intro a ha b hb
          simp [pairsOf] at hb
          subst hb
          have := (h1 a ha).2
          simp
          omega
        have hrec := ih (i+1) ((doEdit ef
            { st with processed := st.processed ++ [i],
                      rows := st.rows ++ tableAt pt er i }
            (Msg.progress ((i+1) * 100 / tot) (i+1) tot)).1) h1' h2'
        simp only [loop, hca, Bool.false_eq_true, if_false, hcond, if_true]
        exact hrec
      | false =>
        have hrec := ih (i+1)
          { st with processed := st.processed ++ [i],
                    rows := st.rows ++ tableAt pt er i }
          (fun pr hpr => ⟨(h1 pr hpr).1, by have := (h1 pr hpr).2; omega⟩) h2
        simp only [loop, hca, Bool.false_eq_true, if_false, hcond]
        exact hrec

/-- A loop run that exits through cancellation has the cancellation edit as
its final recorded notification. -/
lemma loop_ends_cancelled (pt : Nat → Option (List Row)) (er ca ef : Nat → Bool)
    (tot step : Nat) :
    ∀ rem i st j, (loop pt er ca ef tot step rem i st).exitc = .cancelledOk j →
      ∃ pre, (loop pt er ca ef tot step rem i st).st.edits
        = pre ++ [Msg.cancelled j tot] := by
  intro rem
  induction rem with
  | zero =>
    intro i st j h
    simp [loop] at h
  | succ rem ih =>
    intro i st j h
    cases hca : ca i with
    | true =>
      simp only [loop, hca, if_true, doEdit] at h ⊢
      cases hef : ef st.nEdit with
      | false =>
        simp only [hef, Bool.not_false, if_true] at h
        have hij : i = j := by
          cases h
          rfl
        exact ⟨st.edits, by rw [hij]⟩
      | true =>
        simp only [hef, Bool.not_true, Bool.false_eq_true, if_false] at h
        cases h
    | false =>
      cases hcond : ((i+1) % step == 0 || (i+1) == tot) with
      | true =>
        simp only [loop, hca, Bool.false_eq_true, if_false, hcond, if_true] at h ⊢
        exact ih (i+1) _ j h
      | false =>
        simp only [loop, hca, Bool.false_eq_true, if_false, hcond] at h ⊢
        exact ih (i+1) _ j h

/-- Every body run either raises (the except handler then sends the generic
notice) or ends its notification stream with a terminal message. -/
lemma body_last (inp : RunInput) (ef : Nat → Bool) (o s n : Bool) :
    (body inp ef o s n).exitc = .raised
    ∨ ∃ pre m, (body inp ef o s n).st.edits = pre ++ [m]
        ∧ isTerminal m = true := by
  simp only [body, doEdit, List.nil_append]
  cases hef : ef 0 with
  | true => simp [hef]
  | false =>
    simp only [hef, Bool.not_false, Bool.not_true, Bool.false_eq_true, if_false]
    cases ho : o with
    | true => simp
    | false =>
      simp only [Bool.false_eq_true, if_false]
      cases hz : inp.totalPages == 0 with
      | true =>
        simp only [hz, if_true]
        exact Or.inr ⟨[Msg.processing], Msg.empty, rfl, rfl⟩
      | false =>
        simp only [hz, Bool.false_eq_true, if_false]
        set L := loop inp.pageTables inp.extractRaises inp.cancelAtCheck ef
            (min inp.totalPages MAX_PAGES)
            (max 1 (min inp.totalPages MAX_PAGES / PROGRESS_STEPS))
            (min inp.totalPages MAX_PAGES) 0
            { edits := [Msg.processing], nEdit := 0 + 1, rows := [], processed := [] }
          with hL
        cases hlex : L.exitc with
        | cancelledOk i =>
          obtain ⟨pre, hpre⟩ := loop_ends_cancelled inp.pageTables inp.extractRaises
            inp.cancelAtCheck ef (min inp.totalPages MAX_PAGES)
            (max 1 (min inp.totalPages MAX_PAGES / PROGRESS_STEPS))
            (min inp.totalPages MAX_PAGES) 0
            { edits := [Msg.processing], nEdit := 0 + 1, rows := [], processed := [] }
            i (by rw [← hL]; exact hlex)
          rw [← hL] at hpre
          exact Or.inr ⟨pre, Msg.cancelled i (min inp.totalPages MAX_PAGES), hpre, rfl⟩
        | raised => exact Or.inl rfl
        | finished =>
          cases hnt : noTableCheck L.st.rows with
          | true =>
            simp only [hnt, if_true]
            exact Or.inr ⟨L.st.edits, Msg.noTable, rfl, rfl⟩
          | false =>
            simp only [hnt, Bool.false_eq_true, if_false]
            cases hs : s with
            | true => simp
            | false =>
              simp only [Bool.false_eq_true, if_false]
              cases hef2 : ef L.st.nEdit with
              | true =>
                simp only [hef2, Bool.not_true, Bool.not_false, if_true]
                exact Or.inr ⟨L.st.edits, Msg.complete, rfl, rfl⟩
              | false =>
                simp only [hef2, Bool.not_false, Bool.not_true, Bool.false_eq_true,
                  if_false]
                cases hn : n with
                | true =>
                  simp only [if_true]
                  exact Or.inr ⟨L.st.edits, Msg.complete, rfl, rfl⟩
                | false =>
                  simp only [Bool.false_eq_true, if_false]
                  exact Or.inr ⟨L.st.edits, Msg.complete, rfl, rfl⟩

/-- The progress pairs of a whole run obey the percent formula and are issued
in non-decreasing page order, for every input and fault configuration. -/
lemma run_pairs (inp : RunInput) (cfg : FaultCfg) :
    (∀ pr ∈ pairsOf (processPdfAsync inp cfg).edits,
        pr.1 = pr.2 * 100 / (min inp.totalPages MAX_PAGES))
    ∧ (pairsOf (processPdfAsync inp cfg).edits).Pairwise
        (fun a b => a.2 ≤ b.2) := by
  have hbody : (∀ pr ∈ pairsOf (body inp cfg.editFails cfg.openFails
        cfg.saveFails cfg.sendFails).st.edits,
        pr.1 = pr.2 * 100 / (min inp.totalPages MAX_PAGES))
      ∧ (pairsOf (body inp cfg.editFails cfg.openFails cfg.saveFails
          cfg.sendFails).st.edits).Pairwise (fun a b => a.2 ≤ b.2) := by
    simp only [body, doEdit, List.nil_append]
    cases hef : cfg.editFails 0 with
    | true => simp [pairsOf]
    | false =>
      simp only [hef, Bool.not_false, Bool.not_true, Bool.false_eq_true, if_false]
      cases ho : cfg.openFails with
      | true => simp [pairsOf]
      | false =>
        simp only [Bool.false_eq_true, if_false]
        cases hz : inp.totalPages == 0 with
        | true =>
          simp only [hz, if_true]
          constructor
          · intro pr hpr
            simp [pairsOf] at hpr
          · simp [pairsOf]
        | false =>
          simp only [hz, Bool.false_eq_true, if_false]
          set L := loop inp.pageTables inp.extractRaises inp.cancelAtCheck
              cfg.editFails (min inp.totalPages MAX_PAGES)
              (max 1 (min inp.totalPages MAX_PAGES / PROGRESS_STEPS))
              (min inp.totalPages MAX_PAGES) 0
              { edits := [Msg.processing], nEdit := 0 + 1, rows := [], processed := [] }
            with hL
          have hLP := loop_pairs inp.pageTables inp.extractRaises inp.cancelAtCheck
            cfg.editFails (min inp.totalPages MAX_PAGES)
            (max 1 (min inp.totalPages MAX_PAGES / PROGRESS_STEPS))
            (min inp.totalPages MAX_PAGES) 0
            { edits := [Msg.processing], nEdit := 0 + 1, rows := [], processed := [] }
            (by simp [pairsOf]) (by simp [pairsOf])
          rw [← hL] at hLP
          have hcomp : (∀ pr ∈ pairsOf (L.st.edits ++ [Msg.complete]),
                pr.1 = pr.2 * 100 / (min inp.totalPages MAX_PAGES))
              ∧ (pairsOf (L.st.edits ++ [Msg.complete])).Pairwise
                  (fun a b => a.2 ≤ b.2) := by
            rw [pairsOf_append]
            constructor
            · intro pr hpr
              rcases List.mem_append.mp hpr with h | h
              · exact hLP.1 pr h
              · simp [pairsOf] at h
            · rw [List.pairwise_append]
              refine ⟨hLP.2, by simp [pairsOf], ?_⟩
              intro a _ b hb
              simp [pairsOf] at hb
          cases hlex : L.exitc with
          | cancelledOk i => exact hLP
          | raised => exact hLP
          | finished =>
            cases hnt : noTableCheck L.st.rows with
            | true =>
              simp only [hnt, if_true]
              rw [pairsOf_append]
              constructor
              · intro pr hpr
                rcases List.mem_append.mp hpr with h | h
                · exact hLP.1 pr h
                · simp [pairsOf] at h
              · rw [List.pairwise_append]
                refine ⟨hLP.2, by simp [pairsOf], ?_⟩
                intro a _ b hb
                simp [pairsOf] at hb
            | false =>
              simp only [hnt, Bool.false_eq_true, if_false]
              cases hs : cfg.saveFails with
              | true => exact hLP
              | false =>
                simp only [Bool.false_eq_true, if_false]
                cases hef2 : cfg.editFails L.st.nEdit with
                | true =>
                  simp only [hef2, Bool.not_true, if_true]
                  exact hcomp
                | false =>
                  simp only [hef2, Bool.not_false, Bool.not_true,
                    Bool.false_eq_true, if_false]
                  cases hn : cfg.sendFails with
                  | true =>
                    simp only [if_true]
                    exact hcomp
                  | false =>
                    simp only [Bool.false_eq_true, if_false]
                    exact hcomp
  cases hex : ((body inp cfg.editFails cfg.openFails cfg.saveFails
      cfg.sendFails).exitc == BodyExit.raised) with
  | true =>
    simp only [processPdfAsync, hex, if_true, doEdit]
    rw [pairsOf_append]
    constructor
    · intro pr hpr
      rcases List.mem_append.mp hpr with h | h
      · exact hbody.1 pr h
      · simp [pairsOf] at h
    · rw [List.pairwise_append]
      refine ⟨hbody.2, by simp [pairsOf], ?_⟩
      intro a _ b hb
      simp [pairsOf] at hb
  | false =>
    simp only [processPdfAsync, hex, Bool.false_eq_true, if_false]
    exact hbody

/-- Claim C9: over every input and fault configuration, the page counts of
the issued progress reports are non-decreasing, the displayed percentages are
non-decreasing (never below an earlier report of the same run), and the last
notification issued is a terminal one. -/
theorem C9_ordering (inp : RunInput) (cfg : FaultCfg) :
    ((pairsOf (processPdfAsync inp cfg).edits).map Prod.snd).Pairwise (· ≤ ·)
    ∧ ((pairsOf (processPdfAsync inp cfg).edits).map Prod.fst).Pairwise (· ≤ ·)
    ∧ ∃ m, (processPdfAsync inp cfg).edits.getLast? = some m
        ∧ isTerminal m = true := by
  obtain ⟨hf, hp⟩ := run_pairs inp cfg
  refine ⟨?_, ?_, ?_⟩
  · rw [List.pairwise_map]
    exact hp
  · rw [List.pairwise_map]
    refine List.Pairwise.imp_of_mem ?_ hp
    intro a b ha hb hle
    rw [hf a ha, hf b hb]
    exact Nat.div_le_div_right (Nat.mul_le_mul_right 100 hle)
  · cases hex : ((body inp cfg.editFails cfg.openFails cfg.saveFails
        cfg.sendFails).exitc == BodyExit.raised) with
    | true =>
      refine ⟨Msg.genericError, ?_, rfl⟩
      simp only [processPdfAsync, hex, if_true, doEdit]
      exact getLast?_app _ _
    | false =>
      rcases body_last inp cfg.editFails cfg.openFails cfg.saveFails cfg.sendFails
        with h | ⟨pre, m, hm, ht⟩
      · rw [h] at hex
        simp at hex
      · refine ⟨m, ?_, ht⟩
        simp only [processPdfAsync, hex, Bool.false_eq_true, if_false]
        rw [hm]
        exact getLast?_app _ _

end PdfBot
